import Mathlib

/-!
Verification of the unit-root testing library (Dickey-Fuller / Augmented
Dickey-Fuller tests) against its specification.

Embedding conventions:
* The working floating-point type of the source (`f32`/`f64`) is idealized as
  exact rational arithmetic.  Where IEEE-754 special values matter (division
  by zero in the OLS variance step, critical-value formula at sample size 0),
  values live in `FQ`, rationals extended with `inf`, `neginf` and `nan`,
  whose operations follow the IEEE rules on those specials (the sign of zero
  is not modelled; all zeros are `+0`).
* `nalgebra` dynamic vectors are `List ℚ`; a dynamic matrix is its list of
  columns (the source fills matrices column by column).
* Rust `Result` is `Except`; `usize` subtraction appears only where the
  source guarantees no underflow and is Lean `Nat` subtraction.
-/

namespace UnitRoot

/-- Constant and trend parameters to include in the regression
(source: `src/distrib/mod.rs`, `enum Regression`). -/
inductive Regression
  | Constant
  | ConstantAndTrend
  | NoConstantNoTrend
  deriving DecidableEq

/-- Alpha levels (source: `src/distrib/mod.rs`, `enum AlphaLevel`). -/
inductive AlphaLevel
  | OnePercent
  | TwoPointFivePercent
  | FivePercent
  | TenPercent
  deriving DecidableEq

/-- The crate error type (source: `src/lib.rs`, `enum Error`). -/
inductive Error
  | FailedToInvertMatrix (msg : String)
  | NotEnoughSamples
  | ConversionFailed
  deriving DecidableEq

/-- Error type of the critical-value module
(source: `src/distrib/mod.rs`, `enum CalculationError`). -/
inductive CalculationError
  | ConversionFailed
  deriving DecidableEq

instance {ε α : Type} [DecidableEq ε] [DecidableEq α] : DecidableEq (Except ε α) := by
  intro a b
  cases a <;> cases b
  case error.error e f =>
    exact if h : e = f then .isTrue (by rw [h]) else .isFalse (fun hh => h (by injection hh))
  case error.ok e f => exact .isFalse (fun hh => Except.noConfusion hh)
  case ok.error e f => exact .isFalse (fun hh => Except.noConfusion hh)
  case ok.ok e f =>
    exact if h : e = f then .isTrue (by rw [h]) else .isFalse (fun hh => h (by injection hh))

/-- An idealized IEEE-754 value: an exact rational, or a special value.
The sign of zero is not modelled (every zero is `+0`). -/
inductive FQ
  | fin (q : ℚ)
  | inf
  | neginf
  | nan
  deriving DecidableEq

namespace FQ

/-- IEEE addition on idealized values (finite arithmetic is exact). -/
def add : FQ → FQ → FQ
  | nan, _ => nan
  | _, nan => nan
  | fin a, fin b => fin (a + b)
  | fin _, inf => inf
  | fin _, neginf => neginf
  | inf, fin _ => inf
  | neginf, fin _ => neginf
  | inf, inf => inf
  | neginf, neginf => neginf
  | inf, neginf => nan
  | neginf, inf => nan

/-- IEEE division on idealized values: a nonzero finite value divided by
(positive) zero gives a signed infinity, `0 / 0` gives `nan`. -/
def div : FQ → FQ → FQ
  | nan, _ => nan
  | _, nan => nan
  | fin a, fin b =>
      if b = 0 then (if a = 0 then nan else if 0 < a then inf else neginf)
      else fin (a / b)
  | fin _, inf => fin 0
  | fin _, neginf => fin 0
  | inf, fin b => if 0 ≤ b then inf else neginf
  | neginf, fin b => if 0 ≤ b then neginf else inf
  | inf, inf => nan
  | inf, neginf => nan
  | neginf, inf => nan
  | neginf, neginf => nan

/-- Multiplication of an idealized value by an exact rational scalar,
following IEEE rules on the specials (`0 * inf = nan`). -/
def scale (c : ℚ) : FQ → FQ
  | fin b => fin (c * b)
  | inf => if 0 < c then inf else if c < 0 then neginf else nan
  | neginf => if 0 < c then neginf else if c < 0 then inf else nan
  | nan => nan

/-- Rational square root; exact on perfect squares (the only finite inputs
the development evaluates it on). -/
def ratSqrt (q : ℚ) : ℚ := (Nat.sqrt q.num.toNat : ℚ) / (Nat.sqrt q.den : ℚ)

/-- IEEE square root on idealized values: `nan` on negative inputs. -/
def sqrt : FQ → FQ
  | fin q => if q < 0 then nan else fin (ratSqrt q)
  | inf => inf
  | neginf => nan
  | nan => nan

theorem add_nan (a : FQ) : add a nan = nan := by cases a <;> rfl

theorem div_nan (a : FQ) : div a nan = nan := by cases a <;> rfl

theorem scale_nan (c : ℚ) : scale c nan = nan := rfl

theorem sqrt_nan : sqrt nan = nan := rfl

theorem div_fin_zero_zero : div (fin 0) (fin 0) = nan := by
  simp [div]

end FQ

/-- First difference `Δy`: in the source, `y.clone().remove_row(0) - &y_t_1_full`
with `y_t_1_full = y.clone().remove_row(y_len - 1)`
(source: `src/tools/mod.rs`, `prepare`, lines 50-55). -/
def deltaY (y : List ℚ) : List ℚ :=
  List.zipWith (fun a b => a - b) (y.drop 1) y.dropLast

/-- Lag column built at loop iteration `i` of `prepare`: at the start of
iteration `i` the running vector `delta_y_shifted` is `Δy` with its last
`i + 1` elements removed, and the column copied into the matrix is that
vector with its first `n - i - 1` elements removed
(source: `src/tools/mod.rs`, `prepare`, lines 72-81). -/
def lagCol (y : List ℚ) (n i : Nat) : List ℚ :=
  ((deltaY y).take ((deltaY y).length - 1 - i)).drop (n - i - 1)

/-- The `n + 1` core columns of the design matrix: `y[t-1]` with its first
`n` elements removed, then the `n` lag columns
(source: `src/tools/mod.rs`, `prepare`, lines 64-81). -/
def coreCols (y : List ℚ) (n : Nat) : List (List ℚ) :=
  (y.dropLast.drop n) :: (List.range n).map (lagCol y n)

/-- All columns of the design matrix: the core columns, then (depending on
the regression spec) a constant column of ones and a time-trend column
`1..rows`.  The `F::from` conversions always succeed at the `f32`/`f64`
instantiations, so they are modelled as exact
(source: `src/tools/mod.rs`, `prepare`, lines 83-99). -/
def prepareCols (y : List ℚ) (n : Nat) (regression : Regression) : List (List ℚ) :=
  let rows := y.length - n - 1
  let withConst :=
    if regression ≠ Regression.NoConstantNoTrend
      then coreCols y n ++ [List.replicate rows (1 : ℚ)]
      else coreCols y n
  if regression = Regression.ConstantAndTrend
    then withConst ++ [(List.range rows).map (fun i => ((i + 1 : Nat) : ℚ))]
    else withConst

/-- The design-matrix builder: returns `Δy` with its first `n` elements
removed, the predictor matrix (as its list of columns), and the effective
sample size `y_len - n - 1`; fails with `NotEnoughSamples` when
`y_len <= n + 1` (source: `src/tools/mod.rs`, `prepare`). -/
def prepare (y : List ℚ) (n : Nat) (regression : Regression) :
    Except Error (List ℚ × List (List ℚ) × Nat) :=
  if y.length ≤ n + 1 then .error .NotEnoughSamples
  else .ok ((deltaY y).drop n, prepareCols y n regression, y.length - n - 1)

/-- Entry of a column-list matrix at column `i`, row `r` (out-of-range
defaults to `0`, used only in range in the theorems). -/
def colEntry (xcols : List (List ℚ)) (i r : Nat) : ℚ :=
  (xcols.getD i []).getD r 0

/-- `Δy` at index `j`, phrased on the original series:
`diffAt y j = y[j+1] - y[j]`. -/
def diffAt (y : List ℚ) (j : Nat) : ℚ :=
  y.getD (j + 1) 0 - y.getD j 0

/-- Core of the OLS estimator on an `m × k` predictor matrix, mirroring the
body of `ols` (source: `src/regression.rs`, lines 22-61).  Finite
computations (normal equations, residuals) are exact; the variance step and
everything after it live in `FQ` because dividing by `m - k` residual
degrees of freedom can produce IEEE specials.  `try_inverse` fails exactly
on singular matrices, modelled by the determinant test; the inverse itself
is `det⁻¹ • adjugate`. -/
def olsM {m k : Nat} (y : Fin m → ℚ) (x : Matrix (Fin m) (Fin k) ℚ) :
    Except Error ((Fin k → ℚ) × (Fin k → FQ)) :=
  let xt := x.transpose
  let ata := xt * x
  if _hd : ata.det = 0 then
    .error (.FailedToInvertMatrix "OLS failed to invert A.T*A")
  else
    let ata_inv := ata.det⁻¹ • ata.adjugate
    let aty := xt.mulVec y
    let beta_ := ata_inv.mulVec aty
    let y_hat := x.mulVec beta_
    let residuals := fun i => y i - y_hat i
    let rtr := ∑ i, residuals i * residuals i
    let sigma2 := FQ.div (.fin rtr) (.fin ((m - k : Nat) : ℚ))
    let se := fun j : Fin k => FQ.sqrt (FQ.scale (ata_inv j j) sigma2)
    let t_statistics := fun j : Fin k => FQ.div (.fin (beta_ j)) (se j)
    .ok (beta_, t_statistics)

/-- The predictor matrix of `ols` as an `m × k` function matrix over the
column list (entry `(i, j)` is row `i` of column `j`). -/
def olsX (m k : Nat) (xcols : List (List ℚ)) : Matrix (Fin m) (Fin k) ℚ :=
  Matrix.of fun i j => (xcols.getD j []).getD i 0

/-- `ols` with the dimensions `m = x.nrows`, `k = x.ncols` passed
explicitly; the result vectors are read back into lists. -/
def olsDims (m k : Nat) (y : List ℚ) (xcols : List (List ℚ)) :
    Except Error (List ℚ × List FQ) :=
  match olsM (fun i : Fin m => y.getD i 0) (olsX m k xcols) with
  | .error e => .error e
  | .ok (beta_, t_statistics) =>
      .ok ((List.finRange k).map beta_, (List.finRange k).map t_statistics)

/-- OLS regression of `y` on the columns `xcols`: returns the coefficient
vector and the parallel t-statistic vector; the row count is the length of
the first column (`x.nrows` of the column-built `DMatrix`)
(source: `src/regression.rs`, `ols`). -/
def ols (y : List ℚ) (xcols : List (List ℚ)) : Except Error (List ℚ × List FQ) :=
  olsDims (xcols.headD []).length xcols.length y xcols

/-- Test report (source: `src/tools/mod.rs`, `struct Report`). -/
structure Report where
  test_statistic : FQ
  size : Nat
  deriving DecidableEq

/-- Augmented Dickey-Fuller test (source: `src/tools/adf.rs`, `adf_test`). -/
def adf_test (y : List ℚ) (lag : Nat) (regression : Regression) :
    Except Error Report :=
  match prepare y lag regression with
  | .error e => .error e
  | .ok (delta_y, x, size) =>
      match ols delta_y x with
      | .error e => .error e
      | .ok (_betas, t_stats) => .ok ⟨t_stats.getD 0 .nan, size⟩

/-- Dickey-Fuller test (source: `src/tools/dickeyfuller.rs`,
`dickeyfuller_test`): the same pipeline as `adf_test` with lag fixed to 0. -/
def dickeyfuller_test (series : List ℚ) (regression : Regression) :
    Except Error Report :=
  match prepare series 0 regression with
  | .error e => .error e
  | .ok (delta_y, y_t_1, size) =>
      match ols delta_y y_t_1 with
      | .error e => .error e
      | .ok (_betas, t_stats) => .ok ⟨t_stats.getD 0 .nan, size⟩

/-- `F::from(t_stat)` at the `f64` instantiation: converting an `f64` to
`f64` always succeeds (source: `src/distrib/dickeyfuller.rs`, line 84). -/
def f64From (x : FQ) : Option FQ := some x

/-- `t + u/n + v/n² + w/n³` in the working floating type, then conversion to
`F` (source: `src/distrib/dickeyfuller.rs`,
`calculate_t_stat_from_estimators`). -/
def calculate_t_stat_from_estimators (t u v w : ℚ) (sz : Nat) :
    Except CalculationError FQ :=
  let n : ℚ := (sz : ℚ)
  let t_stat :=
    FQ.add
      (FQ.add (FQ.add (.fin t) (FQ.div (.fin u) (.fin n)))
        (FQ.div (.fin v) (.fin (n ^ 2))))
      (FQ.div (.fin w) (.fin (n ^ 3)))
  match f64From t_stat with
  | some x => .ok x
  | none => .error .ConversionFailed

/-- Critical values for the constant, no-trend regression
(source: `src/distrib/dickeyfuller.rs`, `constant_no_trend_critical_value`). -/
def constant_no_trend_critical_value (sz : Nat) (alpha : AlphaLevel) :
    Except CalculationError FQ :=
  let c : ℚ × ℚ × ℚ × ℚ :=
    match alpha with
    | .OnePercent => (-3.43035, -6.5393, -16.786, -79.433)
    | .TwoPointFivePercent => (-3.1175, -4.53235, -9.8824, -57.7669)
    | .FivePercent => (-2.86154, -2.86154, -4.234, -40.04)
    | .TenPercent => (-2.56677, -1.5384, -2.809, 0)
  calculate_t_stat_from_estimators c.1 c.2.1 c.2.2.1 c.2.2.2 sz

/-- Critical values for the no-constant, no-trend regression
(source: `src/distrib/dickeyfuller.rs`, `no_constant_no_trend_critical_value`). -/
def no_constant_no_trend_critical_value (sz : Nat) (alpha : AlphaLevel) :
    Except CalculationError FQ :=
  let c : ℚ × ℚ × ℚ × ℚ :=
    match alpha with
    | .OnePercent => (-2.56574, -2.2358, -3.627, 0)
    | .TwoPointFivePercent => (-2.222133, -1.15384, -3.4829, 17.17265)
    | .FivePercent => (-1.941, -0.2686, -3.365, 31.223)
    | .TenPercent => (-1.61682, 0.2656, -2.714, 25.364)
  calculate_t_stat_from_estimators c.1 c.2.1 c.2.2.1 c.2.2.2 sz

/-- Critical values for the constant-and-trend regression
(source: `src/distrib/dickeyfuller.rs`, `constant_trend_critical_value`). -/
def constant_trend_critical_value (sz : Nat) (alpha : AlphaLevel) :
    Except CalculationError FQ :=
  let c : ℚ × ℚ × ℚ × ℚ :=
    match alpha with
    | .OnePercent => (-3.95877, -9.0531, -28.428, -134.155)
    | .TwoPointFivePercent => (-3.657216, -6.488615, -17.7624, -85.32545)
    | .FivePercent => (-3.41049, -4.3904, -9.036, -45.374)
    | .TenPercent => (-3.12705, -2.5856, -3.925, -22.38)
  calculate_t_stat_from_estimators c.1 c.2.1 c.2.2.1 c.2.2.2 sz

/-- Critical-value lookup dispatching on the regression spec
(source: `src/distrib/dickeyfuller.rs`, `get_critical_value`). -/
def get_critical_value (regression : Regression) (sz : Nat) (alpha : AlphaLevel) :
    Except CalculationError FQ :=
  match regression with
  | .Constant => constant_no_trend_critical_value sz alpha
  | .ConstantAndTrend => constant_trend_critical_value sz alpha
  | .NoConstantNoTrend => no_constant_no_trend_critical_value sz alpha

/-- The 12-entry reference table of constants `(t, u, v, w)`, one tuple per
regression spec and alpha level, as selected by the three critical-value
functions. -/
def dfConstants (regression : Regression) (alpha : AlphaLevel) : ℚ × ℚ × ℚ × ℚ :=
  match regression, alpha with
  | .Constant, .OnePercent => (-3.43035, -6.5393, -16.786, -79.433)
  | .Constant, .TwoPointFivePercent => (-3.1175, -4.53235, -9.8824, -57.7669)
  | .Constant, .FivePercent => (-2.86154, -2.86154, -4.234, -40.04)
  | .Constant, .TenPercent => (-2.56677, -1.5384, -2.809, 0)
  | .NoConstantNoTrend, .OnePercent => (-2.56574, -2.2358, -3.627, 0)
  | .NoConstantNoTrend, .TwoPointFivePercent => (-2.222133, -1.15384, -3.4829, 17.17265)
  | .NoConstantNoTrend, .FivePercent => (-1.941, -0.2686, -3.365, 31.223)
  | .NoConstantNoTrend, .TenPercent => (-1.61682, 0.2656, -2.714, 25.364)
  | .ConstantAndTrend, .OnePercent => (-3.95877, -9.0531, -28.428, -134.155)
  | .ConstantAndTrend, .TwoPointFivePercent => (-3.657216, -6.488615, -17.7624, -85.32545)
  | .ConstantAndTrend, .FivePercent => (-3.41049, -4.3904, -9.036, -45.374)
  | .ConstantAndTrend, .TenPercent => (-3.12705, -2.5856, -3.925, -22.38)

theorem getD_drop (l : List ℚ) (n r : Nat) (h : n + r < l.length) :
    (l.drop n).getD r 0 = l.getD (n + r) 0 := by
  rw [List.getD_eq_getElem _ _ (by simp [List.length_drop]; omega),
    List.getD_eq_getElem _ _ h]
  exact List.getElem_drop l

theorem getD_take (l : List ℚ) (n r : Nat) (h : r < n) (h2 : r < l.length) :
    (l.take n).getD r 0 = l.getD r 0 := by
  rw [List.getD_eq_getElem _ _ (by simp [List.length_take]; omega),
    List.getD_eq_getElem _ _ h2]
  exact List.getElem_take l

theorem getD_dropLast (l : List ℚ) (r : Nat) (h : r < l.length - 1) :
    l.dropLast.getD r 0 = l.getD r 0 := by
  rw [List.getD_eq_getElem _ _ (by simp [List.length_dropLast]; omega),
    List.getD_eq_getElem _ _ (by omega)]
  exact List.getElem_dropLast l r _

theorem length_deltaY (y : List ℚ) : (deltaY y).length = y.length - 1 := by
  simp [deltaY, List.length_zipWith]

theorem deltaY_getD (y : List ℚ) (j : Nat) (hj : j < y.length - 1) :
    (deltaY y).getD j 0 = diffAt y j := by
  rw [diffAt,
    List.getD_eq_getElem _ _ (by rw [length_deltaY]; omega),
    List.getD_eq_getElem _ _ (by omega : j + 1 < y.length),
    List.getD_eq_getElem _ _ (by omega : j < y.length)]
  simp only [deltaY, List.getElem_zipWith, List.getElem_drop, List.getElem_dropLast]
  congr 2
  omega

theorem length_coreCols (y : List ℚ) (n : Nat) : (coreCols y n).length = n + 1 := by
  simp [coreCols]

theorem prepareCols_noconst (y : List ℚ) (n : Nat) :
    prepareCols y n .NoConstantNoTrend = coreCols y n := rfl

theorem prepareCols_const (y : List ℚ) (n : Nat) :
    prepareCols y n .Constant =
      coreCols y n ++ [List.replicate (y.length - n - 1) (1 : ℚ)] := rfl

theorem prepareCols_trend (y : List ℚ) (n : Nat) :
    prepareCols y n .ConstantAndTrend =
      coreCols y n ++ [List.replicate (y.length - n - 1) (1 : ℚ)] ++
        [(List.range (y.length - n - 1)).map (fun i => ((i + 1 : Nat) : ℚ))] := rfl

theorem prepareCols_getD (y : List ℚ) (n : Nat) (reg : Regression) (i : Nat)
    (hi : i < n + 1) :
    (prepareCols y n reg).getD i [] = (coreCols y n).getD i [] := by
  have hlen : i < (coreCols y n).length := by rw [length_coreCols]; omega
  have hlen2 : i < (coreCols y n ++ [List.replicate (y.length - n - 1) (1 : ℚ)]).length := by
    simp only [List.length_append, List.length_cons]; omega
  cases reg
  · rw [prepareCols_const, List.getD_append _ _ _ _ hlen]
  · rw [prepareCols_trend, List.getD_append _ _ _ _ hlen2,
      List.getD_append _ _ _ _ hlen]
  · rw [prepareCols_noconst]

theorem coreCols_getD_zero (y : List ℚ) (n : Nat) :
    (coreCols y n).getD 0 [] = y.dropLast.drop n := rfl

theorem coreCols_getD_succ (y : List ℚ) (n i : Nat) (hi : i < n) :
    (coreCols y n).getD (i + 1) [] = lagCol y n i := by
  rw [coreCols, List.getD_cons_succ,
    List.getD_eq_getElem _ _ (by simp [List.length_map, List.length_range]; omega)]
  simp [List.getElem_map, List.getElem_range]

theorem lagCol_getD (y : List ℚ) (n i r : Nat) (hin : i < n)
    (hlen : n + 1 < y.length) (hr : r < y.length - n - 1) :
    (lagCol y n i).getD r 0 = (deltaY y).getD (n - i - 1 + r) 0 := by
  have hd : (deltaY y).length = y.length - 1 := length_deltaY y
  rw [lagCol, getD_drop _ _ _ (by simp [List.length_take]; omega),
    getD_take _ _ _ (by omega) (by omega)]

theorem prepare_ok (y : List ℚ) (n : Nat) (reg : Regression) (h : n + 1 < y.length) :
    prepare y n reg =
      .ok ((deltaY y).drop n, prepareCols y n reg, y.length - n - 1) := by
  rw [prepare, if_neg (by omega)]

theorem prepare_err (y : List ℚ) (n : Nat) (reg : Regression) (h : y.length ≤ n + 1) :
    prepare y n reg = .error .NotEnoughSamples := by
  rw [prepare, if_pos h]

theorem prepare_ok_inv (y : List ℚ) (n : Nat) (reg : Regression)
    (v : List ℚ × List (List ℚ) × Nat) (h : prepare y n reg = .ok v) :
    n + 1 < y.length ∧
      v = ((deltaY y).drop n, prepareCols y n reg, y.length - n - 1) := by
  by_cases hc : y.length ≤ n + 1
  · rw [prepare_err y n reg hc] at h; cases h
  · rw [prepare_ok y n reg (by omega)] at h
    injection h with h
    exact ⟨by omega, h.symm⟩

theorem olsM_error_inv {m k : Nat} (y : Fin m → ℚ) (x : Matrix (Fin m) (Fin k) ℚ)
    (e : Error) (h : olsM y x = .error e) :
    e = .FailedToInvertMatrix "OLS failed to invert A.T*A" := by
  by_cases hd : (x.transpose * x).det = 0
  · rw [olsM, dif_pos hd] at h
    injection h with h
    exact h.symm
  · rw [olsM, dif_neg hd] at h
    cases h

theorem ols_error_inv (y : List ℚ) (x : List (List ℚ)) (e : Error)
    (h : ols y x = .error e) :
    e = .FailedToInvertMatrix "OLS failed to invert A.T*A" := by
  rw [ols] at h
  unfold olsDims at h
  cases ho : olsM (fun i : Fin (x.headD []).length => y.getD i 0)
      (olsX (x.headD []).length x.length x) with
  | error f =>
      rw [ho] at h
      injection h with h
      exact h ▸ olsM_error_inv _ _ f ho
  | ok p =>
      obtain ⟨betas, tstats⟩ := p
      rw [ho] at h
      cases h

/-- C1: for every series `y` of length `n`, lag `l` and regression spec with
`n > l + 1`, the builder `prepare` succeeds and returns size `n - l - 1`,
and any `Report` returned by `adf_test` carries that same size. -/
theorem adf_test_size (y : List ℚ) (l : Nat) (spec : Regression)
    (h : l + 1 < y.length) :
    (∃ dy x, prepare y l spec = .ok (dy, x, y.length - l - 1)) ∧
      ∀ rep : Report, adf_test y l spec = .ok rep → rep.size = y.length - l - 1 := by
  constructor
  · exact ⟨_, _, prepare_ok y l spec h⟩
  · intro rep hrep
    rw [adf_test] at hrep
    cases ho : ols ((deltaY y).drop l) (prepareCols y l spec) with
    | error e =>
        simp only [prepare_ok y l spec h, ho] at hrep
        cases hrep
    | ok p =>
        obtain ⟨betas, tstats⟩ := p
        simp only [prepare_ok y l spec h, ho] at hrep
        injection hrep with hrep
        rw [← hrep]

/-- C1 witness: the triangular series of length 10 with lag 2. -/
theorem adf_test_size_witness :
    2 + 1 < ([1, 3, 6, 10, 15, 21, 28, 36, 45, 55] : List ℚ).length ∧
      ((∃ dy x, prepare [1, 3, 6, 10, 15, 21, 28, 36, 45, 55] 2 .Constant =
          .ok (dy, x, ([1, 3, 6, 10, 15, 21, 28, 36, 45, 55] : List ℚ).length - 2 - 1)) ∧
        ∀ rep : Report, adf_test [1, 3, 6, 10, 15, 21, 28, 36, 45, 55] 2 .Constant = .ok rep →
          rep.size = ([1, 3, 6, 10, 15, 21, 28, 36, 45, 55] : List ℚ).length - 2 - 1) :=
  ⟨by simp, adf_test_size [1, 3, 6, 10, 15, 21, 28, 36, 45, 55] 2 .Constant (by simp)⟩

/-- C2: `adf_test` (and `dickeyfuller_test`, which fixes the lag to 0)
returns the `NotEnoughSamples` error exactly when the series length does not
exceed `lag + 1`; the check happens before any computation, so an error means
no partial result was produced. -/
theorem adf_test_not_enough_samples (y : List ℚ) (l : Nat) (spec : Regression) :
    (adf_test y l spec = .error .NotEnoughSamples ↔ y.length ≤ l + 1) ∧
      (dickeyfuller_test y spec = .error .NotEnoughSamples ↔ y.length ≤ 0 + 1) := by
  have key : ∀ l', (adf_test y l' spec = .error .NotEnoughSamples ↔ y.length ≤ l' + 1) := by
    intro l'
    constructor
    · intro h
      by_contra hc
      rw [adf_test] at h
      cases ho : ols ((deltaY y).drop l') (prepareCols y l' spec) with
      | error e =>
          simp only [prepare_ok y l' spec (by omega), ho] at h
          injection h with h
          have := ols_error_inv _ _ e ho
          rw [h] at this
          cases this
      | ok p =>
          obtain ⟨betas, tstats⟩ := p
          simp only [prepare_ok y l' spec (by omega), ho] at h
          cases h
    · intro h
      rw [adf_test, prepare_err y l' spec h]
  refine ⟨key l, ?_⟩
  have hdf : dickeyfuller_test y spec = adf_test y 0 spec := rfl
  rw [hdf]
  exact key 0

/-- C3: `adf_test` at lag 0 and `dickeyfuller_test` are the same function:
they produce equal results (same statistic and size on success, same error on
failure) on every series and regression spec. -/
theorem adf_test_lag0_eq_dickeyfuller (y : List ℚ) (spec : Regression) :
    adf_test y 0 spec = dickeyfuller_test y spec := rfl

/-- C4: on the series `[1,3,6,10,15,21,28,36,45,55]` with lag 2 and the
`Constant` spec, the builder returns size 7, the response `[4,...,10]`, and
the predictor matrix whose columns are the lagged level, the two difference
lags, and the constant column - row-major it is exactly
`[[6,3,2,1],...,[45,9,8,1]]`. -/
theorem prepare_triangular_example :
    prepare [1, 3, 6, 10, 15, 21, 28, 36, 45, 55] 2 .Constant =
      .ok ([4, 5, 6, 7, 8, 9, 10],
        [[6, 10, 15, 21, 28, 36, 45], [3, 4, 5, 6, 7, 8, 9],
         [2, 3, 4, 5, 6, 7, 8], [1, 1, 1, 1, 1, 1, 1]], 7) ∧
    ([[6, 10, 15, 21, 28, 36, 45], [3, 4, 5, 6, 7, 8, 9],
      [2, 3, 4, 5, 6, 7, 8], [1, 1, 1, 1, 1, 1, 1]] : List (List ℚ)).transpose =
      [[6, 3, 2, 1], [10, 4, 3, 1], [15, 5, 4, 1], [21, 6, 5, 1],
       [28, 7, 6, 1], [36, 8, 7, 1], [45, 9, 8, 1]] := by
  constructor
  · norm_num [prepare, prepareCols, coreCols, lagCol, deltaY, List.dropLast,
      List.range_succ, List.replicate]
    rfl
  · decide

theorem length_lagCol (y : List ℚ) (n i : Nat) (hi : i < n) (h : n + 1 < y.length) :
    (lagCol y n i).length = y.length - n - 1 := by
  simp only [lagCol, List.length_drop, List.length_take, length_deltaY]
  omega

theorem prepareCols_colEntry_zero (y : List ℚ) (lag : Nat) (spec : Regression)
    (h : lag + 1 < y.length) (r : Nat) (hr : r < y.length - lag - 1) :
    colEntry (prepareCols y lag spec) 0 r = y.getD (lag + r) 0 := by
  rw [colEntry, prepareCols_getD y lag spec 0 (by omega), coreCols_getD_zero,
    getD_drop _ _ _ (by simp only [List.length_dropLast]; omega),
    getD_dropLast _ _ (by omega)]

theorem prepareCols_colEntry_lag (y : List ℚ) (lag : Nat) (spec : Regression)
    (h : lag + 1 < y.length) (i : Nat) (hi1 : 1 ≤ i) (hi2 : i ≤ lag)
    (r : Nat) (hr : r < y.length - lag - 1) :
    colEntry (prepareCols y lag spec) i r = (deltaY y).getD (lag - i + r) 0 := by
  obtain ⟨j, rfl⟩ : ∃ j, i = j + 1 := ⟨i - 1, by omega⟩
  rw [colEntry, prepareCols_getD y lag spec (j + 1) (by omega),
    coreCols_getD_succ y lag j (by omega),
    lagCol_getD y lag j r (by omega) h hr]
  congr 1

/-- C6: every column of the built matrix and the response are aligned on the
same calendar row: for a row `r` the response holds `Δy` at time
`t = r + lag + 1` (that is `y[r+lag+1] - y[r+lag]`), column 0 holds
`y[r+lag]`, and lag column `i` holds the `i`-th lag of `Δy`, that is
`y[r+lag+1-i] - y[r+lag-i]`. -/
theorem prepare_row_alignment (y : List ℚ) (lag : Nat) (spec : Regression)
    (h : lag + 1 < y.length) (r : Nat) (hr : r < y.length - lag - 1)
    (dy : List ℚ) (x : List (List ℚ)) (sz : Nat)
    (hok : prepare y lag spec = .ok (dy, x, sz)) :
    dy.getD r 0 = y.getD (r + lag + 1) 0 - y.getD (r + lag) 0 ∧
      colEntry x 0 r = y.getD (r + lag) 0 ∧
      ∀ i, 1 ≤ i → i ≤ lag →
        colEntry x i r = y.getD (r + lag + 1 - i) 0 - y.getD (r + lag - i) 0 := by
  obtain ⟨hlen, hv⟩ := prepare_ok_inv y lag spec _ hok
  rw [Prod.ext_iff] at hv
  obtain ⟨hdy, hv⟩ := hv
  rw [Prod.ext_iff] at hv
  obtain ⟨hx, -⟩ := hv
  simp only at hdy hx
  subst hdy hx
  have e2 : r + lag = lag + r := by omega
  refine ⟨?_, ?_, ?_⟩
  · rw [e2, getD_drop _ _ _ (by rw [length_deltaY]; omega),
      deltaY_getD y _ (by omega), diffAt]
  · rw [e2, prepareCols_colEntry_zero y lag spec h r hr]
  · intro i hi1 hi2
    have e3 : r + lag + 1 - i = lag - i + r + 1 := by omega
    have e4 : r + lag - i = lag - i + r := by omega
    rw [e3, e4, prepareCols_colEntry_lag y lag spec h i hi1 hi2 r hr,
      deltaY_getD y _ (by omega), diffAt]

/-- C6 witness: the triangular series with lag 2, row 1. -/
theorem prepare_row_alignment_witness :
    (2 + 1 < ([1, 3, 6, 10, 15, 21, 28, 36, 45, 55] : List ℚ).length ∧
      1 < ([1, 3, 6, 10, 15, 21, 28, 36, 45, 55] : List ℚ).length - 2 - 1) ∧
      (([4, 5, 6, 7, 8, 9, 10] : List ℚ).getD 1 0 =
          ([1, 3, 6, 10, 15, 21, 28, 36, 45, 55] : List ℚ).getD (1 + 2 + 1) 0 -
            ([1, 3, 6, 10, 15, 21, 28, 36, 45, 55] : List ℚ).getD (1 + 2) 0 ∧
        colEntry [[6, 10, 15, 21, 28, 36, 45], [3, 4, 5, 6, 7, 8, 9],
            [2, 3, 4, 5, 6, 7, 8], [1, 1, 1, 1, 1, 1, 1]] 0 1 =
          ([1, 3, 6, 10, 15, 21, 28, 36, 45, 55] : List ℚ).getD (1 + 2) 0 ∧
        ∀ i, 1 ≤ i → i ≤ 2 →
          colEntry [[6, 10, 15, 21, 28, 36, 45], [3, 4, 5, 6, 7, 8, 9],
              [2, 3, 4, 5, 6, 7, 8], [1, 1, 1, 1, 1, 1, 1]] i 1 =
            ([1, 3, 6, 10, 15, 21, 28, 36, 45, 55] : List ℚ).getD (1 + 2 + 1 - i) 0 -
              ([1, 3, 6, 10, 15, 21, 28, 36, 45, 55] : List ℚ).getD (1 + 2 - i) 0) := by
  have hp : prepare [1, 3, 6, 10, 15, 21, 28, 36, 45, 55] 2 .Constant =
      .ok ([4, 5, 6, 7, 8, 9, 10],
        [[6, 10, 15, 21, 28, 36, 45], [3, 4, 5, 6, 7, 8, 9],
         [2, 3, 4, 5, 6, 7, 8], [1, 1, 1, 1, 1, 1, 1]], 7) := by
    norm_num [prepare, prepareCols, coreCols, lagCol, deltaY, List.dropLast,
      List.range_succ, List.replicate]
    rfl
  exact ⟨⟨by simp, by simp⟩,
    prepare_row_alignment [1, 3, 6, 10, 15, 21, 28, 36, 45, 55] 2 .Constant
      (by simp) 1 (by simp) _ _ _ hp⟩

/-- C5 counterexample: at the series `[1,3,6,10,15,21,28,36,45,55]` with
lag 2, row `r = 0` of lag column `i = 1` holds `3 = Δy[1]`, while the claim
predicts `Δy[r + i - 1] = Δy[0] = 2`. -/
theorem prepare_lag_column_claim_counterexample :
    (∃ dy x, prepare [1, 3, 6, 10, 15, 21, 28, 36, 45, 55] 2 .Constant = .ok (dy, x, 7) ∧
      colEntry x 1 0 = 3) ∧
    diffAt [1, 3, 6, 10, 15, 21, 28, 36, 45, 55] (0 + 1 - 1) = 2 ∧ (3 : ℚ) ≠ 2 := by
  have hp : prepare [1, 3, 6, 10, 15, 21, 28, 36, 45, 55] 2 .Constant =
      .ok ([4, 5, 6, 7, 8, 9, 10],
        [[6, 10, 15, 21, 28, 36, 45], [3, 4, 5, 6, 7, 8, 9],
         [2, 3, 4, 5, 6, 7, 8], [1, 1, 1, 1, 1, 1, 1]], 7) := by
    norm_num [prepare, prepareCols, coreCols, lagCol, deltaY, List.dropLast,
      List.range_succ, List.replicate]
    rfl
  exact ⟨⟨_, _, hp, by norm_num [colEntry]⟩, by norm_num [diffAt], by norm_num⟩

/-- C5 (amended): for every series, lag >= 1 and spec, lag column `i` in
`1..=lag` of the built matrix is the `i`-th lag of `Δy`, trimmed to the
common row count `n - 1 - lag`: row `r` of column `i` holds
`Δy[r + lag - i]` (with `Δy[j] = y[j+1] - y[j]`). -/
theorem prepare_lag_columns (y : List ℚ) (lag : Nat) (spec : Regression)
    (h : lag + 1 < y.length) (i : Nat) (hi1 : 1 ≤ i) (hi2 : i ≤ lag)
    (dy : List ℚ) (x : List (List ℚ)) (sz : Nat)
    (hok : prepare y lag spec = .ok (dy, x, sz)) :
    (x.getD i []).length = y.length - 1 - lag ∧
      ∀ r, r < y.length - 1 - lag → colEntry x i r = diffAt y (r + lag - i) := by
  obtain ⟨hlen, hv⟩ := prepare_ok_inv y lag spec _ hok
  rw [Prod.ext_iff] at hv
  obtain ⟨-, hv⟩ := hv
  rw [Prod.ext_iff] at hv
  obtain ⟨hx, -⟩ := hv
  simp only at hx
  subst hx
  constructor
  · obtain ⟨j, rfl⟩ : ∃ j, i = j + 1 := ⟨i - 1, by omega⟩
    rw [prepareCols_getD y lag spec (j + 1) (by omega),
      coreCols_getD_succ y lag j (by omega),
      length_lagCol y lag j (by omega) h]
    omega
  · intro r hr
    rw [prepareCols_colEntry_lag y lag spec h i hi1 hi2 r (by omega),
      deltaY_getD y _ (by omega)]
    congr 1
    omega

/-- C5 (amended) witness: the triangular series, lag 2, column 1. -/
theorem prepare_lag_columns_witness :
    (2 + 1 < ([1, 3, 6, 10, 15, 21, 28, 36, 45, 55] : List ℚ).length ∧
      1 ≤ 1 ∧ 1 ≤ 2) ∧
      ((([[6, 10, 15, 21, 28, 36, 45], [3, 4, 5, 6, 7, 8, 9],
          [2, 3, 4, 5, 6, 7, 8], [1, 1, 1, 1, 1, 1, 1]] : List (List ℚ)).getD 1 []).length =
          ([1, 3, 6, 10, 15, 21, 28, 36, 45, 55] : List ℚ).length - 1 - 2 ∧
        ∀ r, r < ([1, 3, 6, 10, 15, 21, 28, 36, 45, 55] : List ℚ).length - 1 - 2 →
          colEntry [[6, 10, 15, 21, 28, 36, 45], [3, 4, 5, 6, 7, 8, 9],
              [2, 3, 4, 5, 6, 7, 8], [1, 1, 1, 1, 1, 1, 1]] 1 r =
            diffAt [1, 3, 6, 10, 15, 21, 28, 36, 45, 55] (r + 2 - 1)) := by
  have hp : prepare [1, 3, 6, 10, 15, 21, 28, 36, 45, 55] 2 .Constant =
      .ok ([4, 5, 6, 7, 8, 9, 10],
        [[6, 10, 15, 21, 28, 36, 45], [3, 4, 5, 6, 7, 8, 9],
         [2, 3, 4, 5, 6, 7, 8], [1, 1, 1, 1, 1, 1, 1]], 7) := by
    norm_num [prepare, prepareCols, coreCols, lagCol, deltaY, List.dropLast,
      List.range_succ, List.replicate]
    rfl
  exact ⟨⟨by simp, le_refl 1, by omega⟩,
    prepare_lag_columns [1, 3, 6, 10, 15, 21, 28, 36, 45, 55] 2 .Constant
      (by simp) 1 (le_refl 1) (by omega) _ _ _ hp⟩

theorem FQ.div_fin_of_ne (a b : ℚ) (hb : b ≠ 0) :
    FQ.div (.fin a) (.fin b) = .fin (a / b) := by
  simp [FQ.div, hb]

theorem FQ.add_fin (a b : ℚ) : FQ.add (.fin a) (.fin b) = .fin (a + b) := rfl

/-- C7: for every regression spec, alpha level and sample size `n >= 1`,
`get_critical_value` returns `t + u/n + v/n^2 + w/n^3` where `(t,u,v,w)` is
the tuple selected by (regression, alpha) from the fixed 12-entry table; in
particular the value at (`Constant`, 25, `OnePercent`) is within `1e-3` of
`-3.724`. -/
theorem get_critical_value_formula (reg : Regression) (n : Nat) (alpha : AlphaLevel)
    (h : 1 ≤ n) :
    (get_critical_value reg n alpha =
      .ok (.fin ((dfConstants reg alpha).1 + (dfConstants reg alpha).2.1 / (n : ℚ) +
        (dfConstants reg alpha).2.2.1 / (n : ℚ) ^ 2 +
        (dfConstants reg alpha).2.2.2 / (n : ℚ) ^ 3))) ∧
    ∃ q : ℚ, get_critical_value .Constant 25 .OnePercent = .ok (.fin q) ∧
      |q - (-3724 / 1000)| < 1 / 1000 := by
  have hn : ((n : ℚ)) ≠ 0 := Nat.cast_ne_zero.mpr (by omega)
  constructor
  · cases reg <;> cases alpha <;>
      simp [get_critical_value, constant_no_trend_critical_value,
        no_constant_no_trend_critical_value, constant_trend_critical_value,
        calculate_t_stat_from_estimators, f64From, dfConstants,
        FQ.add_fin, FQ.div_fin_of_ne _ _ hn,
        FQ.div_fin_of_ne _ _ (pow_ne_zero 2 hn), FQ.div_fin_of_ne _ _ (pow_ne_zero 3 hn)]
  · refine ⟨(-3.43035 : ℚ) + (-6.5393 : ℚ) / 25 + (-16.786 : ℚ) / 25 ^ 2 +
      (-79.433 : ℚ) / 25 ^ 3, ?_, ?_⟩
    · have h25 : ((25 : ℚ)) ≠ 0 := by norm_num
      simp [get_critical_value, constant_no_trend_critical_value,
        calculate_t_stat_from_estimators, f64From,
        FQ.add_fin, FQ.div_fin_of_ne _ _ h25,
        FQ.div_fin_of_ne _ _ (pow_ne_zero 2 h25), FQ.div_fin_of_ne _ _ (pow_ne_zero 3 h25)]
    · rw [abs_sub_lt_iff]
      constructor <;> norm_num

/-- C7 witness: the `Constant` spec at sample size 25 and the 1% level. -/
theorem get_critical_value_formula_witness :
    1 ≤ 25 ∧
      ((get_critical_value .Constant 25 .OnePercent =
        .ok (.fin ((dfConstants .Constant .OnePercent).1 +
          (dfConstants .Constant .OnePercent).2.1 / (25 : ℚ) +
          (dfConstants .Constant .OnePercent).2.2.1 / (25 : ℚ) ^ 2 +
          (dfConstants .Constant .OnePercent).2.2.2 / (25 : ℚ) ^ 3))) ∧
      ∃ q : ℚ, get_critical_value .Constant 25 .OnePercent = .ok (.fin q) ∧
        |q - (-3724 / 1000)| < 1 / 1000) :=
  ⟨by norm_num, get_critical_value_formula .Constant 25 .OnePercent (by norm_num)⟩

/-- C10: at the `f64` instantiation the final conversion in
`calculate_t_stat_from_estimators` always succeeds, so `get_critical_value`
returns `Ok` for every regression spec, every sample size (including 0,
where the divisions produce IEEE specials) and every alpha level; the
`ConversionFailed` branch is unreachable. -/
theorem get_critical_value_total (reg : Regression) (n : Nat) (alpha : AlphaLevel) :
    ∃ v, get_critical_value reg n alpha = .ok v := by
  cases reg <;> cases alpha <;> exact ⟨_, rfl⟩

theorem FQ.sqrt_fin_zero : FQ.sqrt (.fin 0) = .fin 0 := by
  simp [FQ.sqrt, FQ.ratSqrt]

theorem olsM_square {k : Nat} (y : Fin k → ℚ) (x : Matrix (Fin k) (Fin k) ℚ)
    (hdet : (x.transpose * x).det ≠ 0) :
    olsM y x =
      .ok ((((x.transpose * x).det⁻¹ • (x.transpose * x).adjugate).mulVec
        (x.transpose.mulVec y)), fun _ => FQ.nan) := by
  have hu : IsUnit x.det := by
    apply isUnit_iff_ne_zero.mpr
    intro h0
    apply hdet
    rw [Matrix.det_mul, Matrix.det_transpose, h0, mul_zero]
  have hut : IsUnit x.transpose.det := by rw [Matrix.det_transpose]; exact hu
  have hinv : (x.transpose * x).det⁻¹ • (x.transpose * x).adjugate =
      (x.transpose * x)⁻¹ := by
    rw [Matrix.inv_def, Ring.inverse_eq_inv]
  have hproj : x * (x.transpose * x)⁻¹ * x.transpose = 1 := by
    rw [Matrix.mul_inv_rev, ← Matrix.mul_assoc, Matrix.mul_nonsing_inv x hu, one_mul,
      Matrix.nonsing_inv_mul _ hut]
  have hyhat : x.mulVec ((x.transpose * x)⁻¹.mulVec (x.transpose.mulVec y)) = y := by
    rw [Matrix.mulVec_mulVec, Matrix.mulVec_mulVec, hproj, Matrix.one_mulVec]
  rw [olsM, dif_neg hdet]
  simp only [hinv, hyhat, sub_self, mul_zero, Finset.sum_const_zero, Nat.sub_self,
    Nat.cast_zero, FQ.div_fin_zero_zero, FQ.scale_nan, FQ.sqrt_nan, FQ.div_nan]

/-- C9: when the predictor matrix is square (`m = k`, zero residual degrees
of freedom) and `XᵗX` is invertible, `ols` returns a successful result, not
an error, and no panic can occur: the division of the residual sum of
squares by `m - k = 0` follows the IEEE rules (here `0 / 0 = NaN`, since a
square invertible system has exactly zero residuals), and every standard
error and t-statistic is the non-finite value `NaN`, propagated to the
caller. -/
theorem ols_square_no_panic (y : List ℚ) (xcols : List (List ℚ))
    (hsq : (xcols.headD []).length = xcols.length)
    (hdet : ((olsX xcols.length xcols.length xcols).transpose *
      olsX xcols.length xcols.length xcols).det ≠ 0) :
    ∃ betas tstats, ols y xcols = .ok (betas, tstats) ∧
      tstats.length = xcols.length ∧ ∀ t ∈ tstats, t = FQ.nan := by
  have hols : ols y xcols = .ok ((List.finRange xcols.length).map
      ((((olsX xcols.length xcols.length xcols).transpose *
          olsX xcols.length xcols.length xcols).det⁻¹ •
        ((olsX xcols.length xcols.length xcols).transpose *
          olsX xcols.length xcols.length xcols).adjugate).mulVec
        ((olsX xcols.length xcols.length xcols).transpose.mulVec (fun i => y.getD i 0))),
      (List.finRange xcols.length).map (fun _ => FQ.nan)) := by
    rw [ols, hsq]
    unfold olsDims
    rw [olsM_square _ _ hdet]
  refine ⟨_, _, hols, by simp, ?_⟩
  intro t ht
  simp only [List.mem_map] at ht
  obtain ⟨j, -, rfl⟩ := ht
  rfl

/-- C9 witness: the 1-by-1 system `y = [2]`, `X = [[1]]`. -/
theorem ols_square_no_panic_witness :
    ((([[1]] : List (List ℚ)).headD []).length = ([[1]] : List (List ℚ)).length ∧
      ((olsX ([[1]] : List (List ℚ)).length ([[1]] : List (List ℚ)).length [[1]]).transpose *
        olsX ([[1]] : List (List ℚ)).length ([[1]] : List (List ℚ)).length [[1]]).det ≠ 0) ∧
      ∃ betas tstats, ols [2] [[1]] = .ok (betas, tstats) ∧
        tstats.length = ([[1]] : List (List ℚ)).length ∧ ∀ t ∈ tstats, t = FQ.nan := by
  have hdet : ((olsX ([[1]] : List (List ℚ)).length ([[1]] : List (List ℚ)).length
      [[1]]).transpose *
      olsX ([[1]] : List (List ℚ)).length ([[1]] : List (List ℚ)).length [[1]]).det ≠ 0 := by
    show ((olsX 1 1 ([[1]] : List (List ℚ))).transpose * olsX 1 1 [[1]]).det ≠ 0
    rw [Matrix.det_fin_one, Matrix.mul_apply, Fin.sum_univ_one]
    simp [olsX]
  exact ⟨⟨rfl, hdet⟩, ols_square_no_panic [2] [[1]] rfl hdet⟩

theorem olsM_eval {m k : Nat} (y : Fin m → ℚ) (x : Matrix (Fin m) (Fin k) ℚ)
    (C Cadj : Matrix (Fin k) (Fin k) ℚ) (d : ℚ) (b : Fin k → ℚ) (s2 : FQ)
    (se t : Fin k → FQ)
    (hC : x.transpose * x = C)
    (hd : C.det = d) (hd0 : d ≠ 0)
    (hadj : C.adjugate = Cadj)
    (hb : (d⁻¹ • Cadj).mulVec (x.transpose.mulVec y) = b)
    (hs2 : FQ.div (.fin (∑ i, (y i - x.mulVec b i) * (y i - x.mulVec b i)))
        (.fin ((m - k : Nat) : ℚ)) = s2)
    (hse : ∀ j, FQ.sqrt (FQ.scale ((d⁻¹ • Cadj) j j) s2) = se j)
    (ht : ∀ j, FQ.div (.fin (b j)) (se j) = t j) :
    olsM y x = .ok (b, t) := by
  rw [olsM, dif_neg (by rw [hC, hd]; exact hd0)]
  simp only [hC, hd, hadj, hb, hs2, hse, ht]

/-- C8: OLS of `y = [1,2,3,4,5]` on the single predictor `x = [1,2,3,4,5]`
augmented with an intercept column of ones succeeds with slope coefficient
exactly 1, intercept exactly 0, slope t-statistic `+Infinity` and intercept
t-statistic `NaN` (the residuals are exactly zero, so the standard errors
are zero and the divisions follow the IEEE rules). -/
theorem ols_collinear_example :
    ols [1, 2, 3, 4, 5] [[1, 2, 3, 4, 5], [1, 1, 1, 1, 1]] =
      .ok ([1, 0], [FQ.inf, FQ.nan]) := by
  have hC : (olsX 5 2 ([[1, 2, 3, 4, 5], [1, 1, 1, 1, 1]] : List (List ℚ))).transpose *
      olsX 5 2 [[1, 2, 3, 4, 5], [1, 1, 1, 1, 1]] = !![55, 15; 15, 5] := by
    ext i j
    fin_cases i <;> fin_cases j <;>
      · simp [olsX, Matrix.mul_apply, Fin.sum_univ_five,
          (show ((3 : Fin 5) : ℕ) = 3 from rfl), (show ((4 : Fin 5) : ℕ) = 4 from rfl)]
        norm_num
  have hb : (((50 : ℚ)⁻¹ • !![5, -15; -15, 55]).mulVec
      ((olsX 5 2 ([[1, 2, 3, 4, 5], [1, 1, 1, 1, 1]] : List (List ℚ))).transpose.mulVec
        (fun i : Fin 5 => ([1, 2, 3, 4, 5] : List ℚ).getD i 0))) = ![1, 0] := by
    funext j
    fin_cases j <;>
      · simp [olsX, Matrix.mulVec, Matrix.dotProduct, Fin.sum_univ_five, Fin.sum_univ_two,
          Matrix.smul_apply,
          (show ((3 : Fin 5) : ℕ) = 3 from rfl), (show ((4 : Fin 5) : ℕ) = 4 from rfl)]
        norm_num
  have holsM : olsM (fun i : Fin 5 => ([1, 2, 3, 4, 5] : List ℚ).getD i 0)
      (olsX 5 2 [[1, 2, 3, 4, 5], [1, 1, 1, 1, 1]]) = .ok (![1, 0], ![FQ.inf, FQ.nan]) := by
    refine olsM_eval _ _ (!![55, 15; 15, 5] : Matrix (Fin 2) (Fin 2) ℚ)
      (!![5, -15; -15, 55] : Matrix (Fin 2) (Fin 2) ℚ) 50 ![1, 0] (.fin 0)
      ![.fin 0, .fin 0] ![FQ.inf, FQ.nan] hC ?_ (by norm_num) ?_ hb ?_ ?_ ?_
    · rw [Matrix.det_fin_two_of]; norm_num
    · rw [Matrix.adjugate_fin_two_of]
    · rw [show (∑ i, ((fun i : Fin 5 => ([1, 2, 3, 4, 5] : List ℚ).getD i 0) i -
          (olsX 5 2 [[1, 2, 3, 4, 5], [1, 1, 1, 1, 1]]).mulVec ![1, 0] i) *
          ((fun i : Fin 5 => ([1, 2, 3, 4, 5] : List ℚ).getD i 0) i -
          (olsX 5 2 [[1, 2, 3, 4, 5], [1, 1, 1, 1, 1]]).mulVec ![1, 0] i)) = (0 : ℚ) from by
        simp [olsX, Matrix.mulVec, Matrix.dotProduct, Fin.sum_univ_five, Fin.sum_univ_two,
          (show ((3 : Fin 5) : ℕ) = 3 from rfl), (show ((4 : Fin 5) : ℕ) = 4 from rfl)]]
      rw [show ((5 - 2 : Nat) : ℚ) = 3 by norm_num]
      rw [show FQ.div (.fin 0) (.fin 3) = .fin 0 from by simp [FQ.div]]
    · intro j
      fin_cases j <;>
        · simp [FQ.scale, FQ.sqrt_fin_zero, Matrix.smul_apply]
    · intro j
      fin_cases j <;> simp [FQ.div]
  show olsDims 5 2 [1, 2, 3, 4, 5] [[1, 2, 3, 4, 5], [1, 1, 1, 1, 1]] =
    .ok ([1, 0], [FQ.inf, FQ.nan])
  unfold olsDims
  rw [holsM]
  rfl

end UnitRoot
